import Mathlib

/-!
Shallow embedding of `fetch_firestore_data` from `src/app.py` (lines 50-88)
of the Raspberry-Server-2 repository, together with models of the two
Firestore query shapes it issues and of the 60-second result cache, and
theorems settling the specification's claims about the windowed fetch.

Time is modelled at millisecond resolution: a Firestore/`datetime`
timestamp is an integer count of milliseconds, so `timedelta(seconds=5)`
is the integer `5000` and the scenario instant 10.2 s is `10200`.
Voltages are likewise integers in millivolts (the code never computes
with a voltage, it only checks its presence and carries it through,
so only equality of voltage values matters).
-/

namespace RaspberryServer

/-- Milliseconds in `timedelta(seconds=5)` (line 71). -/
def windowDelta : Int := 5000

/-- Milliseconds in the `ttl=60` of the `st.cache_data` decorator (line 50). -/
def cacheTtl : Int := 60000

/-- A Firestore document as seen through `to_dict()`: the two fields the
code reads (`timestamp`, `voltage`), each possibly absent, plus any other
fields the producer may have written. -/
structure Doc where
  timestamp : Option Int
  voltage : Option Int
  extra : List (String × Int)
deriving DecidableEq

/-- One row appended by the loop at lines 80-87: exactly the two keys
`timestamp` and `voltage`. -/
structure Row where
  timestamp : Int
  voltage : Int
deriving DecidableEq

/-- The timestamp value used for ordering a document that has one
(only ever applied to documents whose `timestamp` is present). -/
def tsv (d : Doc) : Int := d.timestamp.getD 0

/-- Ascending comparison by timestamp, used by the range query's
`order_by("timestamp", ASCENDING)`. -/
def tsLe (d e : Doc) : Prop := tsv d ≤ tsv e

/-- Descending comparison by timestamp, used by the top-1 query's
`order_by("timestamp", DESCENDING)`. -/
def tsGe (d e : Doc) : Prop := tsv e ≤ tsv d

instance : DecidableRel tsLe := fun a b => inferInstanceAs (Decidable (tsv a ≤ tsv b))

instance : DecidableRel tsGe := fun a b => inferInstanceAs (Decidable (tsv b ≤ tsv a))

instance : IsTotal Doc tsLe := ⟨fun a b => le_total (tsv a) (tsv b)⟩

instance : IsTrans Doc tsLe := ⟨fun _ _ _ h h2 => le_trans h h2⟩

instance : IsTotal Doc tsGe := ⟨fun a b => le_total (tsv b) (tsv a)⟩

instance : IsTrans Doc tsGe := ⟨fun _ _ _ h h2 => le_trans h2 h⟩

/-- Whether a document carries a `timestamp` field. Firestore excludes
documents missing the ordered-by field from `order_by` query results. -/
def hasTs (d : Doc) : Bool := d.timestamp.isSome

/-- The filter applied by `where("timestamp", ">=", start_ts)` combined
with `order_by("timestamp")`: documents without the field never match. -/
def inWindow (start : Int) (d : Doc) : Bool :=
  match d.timestamp with
  | some t => decide (start ≤ t)
  | none => false

/-- Lines 57-62: the top-1 query
`order_by("timestamp", DESCENDING).limit(1).stream()` over a list-backed
collection. -/
def queryLatestDesc (coll : List Doc) : List Doc :=
  (List.insertionSort tsGe (coll.filter hasTs)).take 1

/-- Lines 73-78: the range query
`where("timestamp", ">=", start).order_by("timestamp", ASCENDING).stream()`
over a list-backed collection. -/
def queryRangeAsc (coll : List Doc) (start : Int) : List Doc :=
  List.insertionSort tsLe (coll.filter (inWindow start))

/-- Lines 80-87: the row-building loop. A document contributes the row
`{"timestamp": ts, "voltage": v}` exactly when both fields are present;
otherwise it is skipped. -/
def buildRows : List Doc → List Row
  | [] => []
  | d :: ds =>
    match d.timestamp, d.voltage with
    | some ts, some v => ⟨ts, v⟩ :: buildRows ds
    | _, _ => buildRows ds

/-- Lines 50-88: `fetch_firestore_data` over a list-backed collection.
Empty top-1 result or a top document without `timestamp` yields an empty
DataFrame (modelled as `[]`); otherwise the rows built from the range
query anchored at `latest_ts - timedelta(seconds=5)`. -/
def fetch_firestore_data (coll : List Doc) : List Row :=
  match queryLatestDesc coll with
  | [] => []
  | d :: _ =>
    match d.timestamp with
    | none => []
    | some latest_ts => buildRows (queryRangeAsc coll (latest_ts - windowDelta))

/-- A connectivity/query failure raised by the Firestore client. -/
abbrev QueryError := String

/-- Lines 56-88 with the two source queries as fallible oracles: the
function body contains no try/except, so a failure of either `.stream()`
call propagates to the caller unchanged. -/
def fetchE (latestQ : Except QueryError (List Doc))
    (rangeQ : Int → Except QueryError (List Doc)) : Except QueryError (List Row) :=
  match latestQ with
  | .error e => .error e
  | .ok latest =>
    match latest with
    | [] => .ok []
    | d :: _ =>
      match d.timestamp with
      | none => .ok []
      | some latest_ts =>
        match rangeQ (latest_ts - windowDelta) with
        | .error e => .error e
        | .ok docs => .ok (buildRows docs)

/-- A memoized fetch result with the time it was stored. -/
structure CacheEntry where
  result : List Row
  storedAt : Int
deriving DecidableEq

/-- Modelled from the spec: the `@st.cache_data(ttl=60)` decorator at
line 50 — its implementation lives in the Streamlit library, not in this
repository. Per the spec, repeated calls within 60 seconds of a prior
successful call for the same collection identifier return the memoized
result instead of re-querying; otherwise the source is queried and the
result is stored with the current time. -/
def cachedFetch (store : String → List Doc) (cache : String → Option CacheEntry)
    (name : String) (now : Int) : List Row × (String → Option CacheEntry) :=
  match cache name with
  | some e =>
    if now - e.storedAt < cacheTtl then (e.result, cache)
    else
      let r := fetch_firestore_data (store name)
      (r, fun n => if n = name then some ⟨r, now⟩ else cache n)
  | none =>
    let r := fetch_firestore_data (store name)
    (r, fun n => if n = name then some ⟨r, now⟩ else cache n)

/-- A document stripped to the two fields the fetch reads. -/
def stripExtra (d : Doc) : Doc := ⟨d.timestamp, d.voltage, []⟩


lemma tsv_eq {d : Doc} {t : Int} (h : d.timestamp = some t) : tsv d = t := by
  simp [tsv, h]

lemma mem_buildRows {l : List Doc} {row : Row} :
    row ∈ buildRows l ↔
      ∃ d ∈ l, d.timestamp = some row.timestamp ∧ d.voltage = some row.voltage := by
  induction l with
  | nil => simp [buildRows]
  | cons d ds ih =>
    cases hts : d.timestamp with
    | none => simp [buildRows, hts, ih]
    | some ts =>
      cases hv : d.voltage with
      | none => simp [buildRows, hts, hv, ih]
      | some v =>
        simp only [buildRows, hts, hv, List.mem_cons, ih, List.mem_cons]
        constructor
        · rintro (rfl | ⟨e, he, h1, h2⟩)
          · exact ⟨d, Or.inl rfl, hts, hv⟩
          · exact ⟨e, Or.inr he, h1, h2⟩
        · rintro ⟨e, (rfl | he), h1, h2⟩
          · rw [hts] at h1
            rw [hv] at h2
            left
            cases row
            simp_all
          · exact Or.inr ⟨e, he, h1, h2⟩

lemma mem_queryRangeAsc {coll : List Doc} {s : Int} {e : Doc} :
    e ∈ queryRangeAsc coll s ↔ e ∈ coll ∧ inWindow s e = true := by
  unfold queryRangeAsc
  rw [List.mem_insertionSort tsLe, List.mem_filter]

lemma sorted_queryRangeAsc (coll : List Doc) (s : Int) :
    List.Pairwise tsLe (queryRangeAsc coll s) :=
  List.sorted_insertionSort tsLe _

lemma queryLatestDesc_spec {coll : List Doc} {d : Doc} {rest : List Doc}
    (h : queryLatestDesc coll = d :: rest) :
    d ∈ coll ∧ hasTs d = true ∧ ∀ e ∈ coll, hasTs e = true → tsv e ≤ tsv d := by
  unfold queryLatestDesc at h
  cases hL : List.insertionSort tsGe (coll.filter hasTs) with
  | nil => rw [hL] at h; simp at h
  | cons x xs =>
    rw [hL] at h
    simp only [List.take_succ_cons, List.take_zero] at h
    injection h with h1 h2
    subst h1
    have hdmem : x ∈ coll.filter hasTs := by
      rw [← List.mem_insertionSort tsGe, hL]; exact List.mem_cons_self x xs
    have hsorted : List.Sorted tsGe (x :: xs) := by
      rw [← hL]; exact List.sorted_insertionSort tsGe _
    refine ⟨(List.mem_filter.mp hdmem).1, (List.mem_filter.mp hdmem).2, ?_⟩
    intro e he hts
    have hex : e ∈ (x :: xs) := by
      rw [← hL, List.mem_insertionSort tsGe, List.mem_filter]; exact ⟨he, hts⟩
    rcases List.mem_cons.mp hex with rfl | hmem
    · exact le_refl _
    · exact List.rel_of_sorted_cons hsorted e hmem

lemma queryLatestDesc_ne_nil {coll : List Doc} {dl : Doc} {t : Int}
    (hmem : dl ∈ coll) (ht : dl.timestamp = some t) :
    queryLatestDesc coll ≠ [] := by
  intro h
  unfold queryLatestDesc at h
  have : dl ∈ coll.filter hasTs :=
    List.mem_filter.mpr ⟨hmem, by simp [hasTs, ht]⟩
  rw [← List.mem_insertionSort tsGe] at this
  rcases hL : List.insertionSort tsGe (coll.filter hasTs) with _ | ⟨x, xs⟩
  · rw [hL] at this; exact absurd this (List.not_mem_nil dl)
  · rw [hL] at h; simp at h


lemma buildRows_pairwise {l : List Doc} (h : List.Pairwise tsLe l) :
    List.Pairwise (fun r s : Row => r.timestamp ≤ s.timestamp) (buildRows l) := by
  induction l with
  | nil => simp [buildRows]
  | cons d ds ih =>
    rw [List.pairwise_cons] at h
    cases hts : d.timestamp with
    | none => simp only [buildRows, hts]; exact ih h.2
    | some ts =>
      cases hv : d.voltage with
      | none => simp only [buildRows, hts, hv]; exact ih h.2
      | some v =>
        simp only [buildRows, hts, hv]
        rw [List.pairwise_cons]
        refine ⟨?_, ih h.2⟩
        intro s hs
        obtain ⟨e, he, h1, _⟩ := mem_buildRows.mp hs
        have := h.1 e he
        rw [tsLe, tsv_eq hts, tsv_eq h1] at this
        exact this

lemma queryLatestDesc_anchor {coll : List Doc} {latest : Int} {d : Doc} {rest : List Doc}
    (hex : ∃ dl ∈ coll, dl.timestamp = some latest)
    (hmax : ∀ e ∈ coll, ∀ t : Int, e.timestamp = some t → t ≤ latest)
    (h : queryLatestDesc coll = d :: rest) :
    d.timestamp = some latest := by
  obtain ⟨hdcoll, hdts, hdmax⟩ := queryLatestDesc_spec h
  obtain ⟨t0, ht0⟩ := Option.isSome_iff_exists.mp hdts
  obtain ⟨dl, hdl, hdlts⟩ := hex
  have h1 : t0 ≤ latest := hmax d hdcoll t0 ht0
  have h2 : latest ≤ t0 := by
    have := hdmax dl hdl (by simp [hasTs, hdlts])
    rw [tsv_eq hdlts, tsv_eq ht0] at this
    exact this
  rw [ht0, le_antisymm h1 h2]

lemma fetch_eq_nil {coll : List Doc} (h : queryLatestDesc coll = []) :
    fetch_firestore_data coll = [] := by
  unfold fetch_firestore_data
  rw [h]

lemma fetch_eq_noTs {coll : List Doc} {d : Doc} {rest : List Doc}
    (hq : queryLatestDesc coll = d :: rest) (hts : d.timestamp = none) :
    fetch_firestore_data coll = [] := by
  unfold fetch_firestore_data
  rw [hq]
  change (match d.timestamp with
    | none => ([] : List Row)
    | some latest_ts => buildRows (queryRangeAsc coll (latest_ts - windowDelta))) = []
  rw [hts]

lemma fetch_eq_window {coll : List Doc} {d : Doc} {rest : List Doc} {ts : Int}
    (hq : queryLatestDesc coll = d :: rest) (hts : d.timestamp = some ts) :
    fetch_firestore_data coll = buildRows (queryRangeAsc coll (ts - windowDelta)) := by
  unfold fetch_firestore_data
  rw [hq]
  change (match d.timestamp with
    | none => ([] : List Row)
    | some latest_ts => buildRows (queryRangeAsc coll (latest_ts - windowDelta))) = _
  rw [hts]

/-- C1: for every non-empty backing collection, every timestamp `t` of a
record in the window returned by the fetch satisfies
`latest - 5 s <= t <= latest`, where `latest` is the maximum timestamp
present in the collection at the time of the fetch. -/
theorem fetch_window_bounds (coll : List Doc) (latest : Int)
    (hex : ∃ dl ∈ coll, dl.timestamp = some latest)
    (hmax : ∀ e ∈ coll, ∀ t : Int, e.timestamp = some t → t ≤ latest) :
    ∀ row ∈ fetch_firestore_data coll,
      latest - windowDelta ≤ row.timestamp ∧ row.timestamp ≤ latest := by
  intro row hrow
  rcases hq : queryLatestDesc coll with _ | ⟨d, rest⟩
  · obtain ⟨dl, hdl, hdlts⟩ := hex
    exact absurd hq (queryLatestDesc_ne_nil hdl hdlts)
  · have hanchor := queryLatestDesc_anchor hex hmax hq
    rw [fetch_eq_window hq hanchor] at hrow
    obtain ⟨e, he, h1, _⟩ := mem_buildRows.mp hrow
    obtain ⟨hecoll, hewin⟩ := mem_queryRangeAsc.mp he
    constructor
    · rw [inWindow, h1] at hewin
      simpa using hewin
    · exact hmax e hecoll row.timestamp h1

/-- C2: for every backing collection, the window returned by the fetch is
ordered by timestamp: consecutive records are monotonically
non-decreasing in timestamp. -/
theorem fetch_sorted (coll : List Doc) :
    List.Chain' (fun r s : Row => r.timestamp ≤ s.timestamp)
      (fetch_firestore_data coll) := by
  rcases hq : queryLatestDesc coll with _ | ⟨d, rest⟩
  · rw [fetch_eq_nil hq]
    exact List.chain'_nil
  · rcases hts : d.timestamp with _ | ts
    · rw [fetch_eq_noTs hq hts]
      exact List.chain'_nil
    · rw [fetch_eq_window hq hts]
      exact (buildRows_pairwise (sorted_queryRangeAsc coll (ts - windowDelta))).chain'


lemma fetchE_ok_eq (coll : List Doc) :
    fetchE (.ok (queryLatestDesc coll)) (fun s => .ok (queryRangeAsc coll s)) =
      .ok (fetch_firestore_data coll) := by
  rcases hq : queryLatestDesc coll with _ | ⟨d, rest⟩
  · rw [fetch_eq_nil hq]
    rfl
  · rcases hts : d.timestamp with _ | ts
    · rw [fetch_eq_noTs hq hts]
      unfold fetchE
      change (match d.timestamp with
        | none => Except.ok ([] : List Row)
        | some latest_ts =>
          match Except.ok (ε := QueryError) (queryRangeAsc coll (latest_ts - windowDelta)) with
          | Except.error er => Except.error er
          | Except.ok docs => Except.ok (buildRows docs)) = Except.ok []
      rw [hts]
    · rw [fetch_eq_window hq hts]
      unfold fetchE
      change (match d.timestamp with
        | none => Except.ok ([] : List Row)
        | some latest_ts =>
          match Except.ok (ε := QueryError) (queryRangeAsc coll (latest_ts - windowDelta)) with
          | Except.error er => Except.error er
          | Except.ok docs => Except.ok (buildRows docs)) =
        Except.ok (buildRows (queryRangeAsc coll (ts - windowDelta)))
      rw [hts]

/-- C3: malformed records (missing `timestamp` or `voltage`) are excluded
from the window, their presence never makes the fetch fail, and every
well-formed record inside the window is still returned. -/
theorem fetch_filters_malformed (coll : List Doc) (latest : Int)
    (hex : ∃ dl ∈ coll, dl.timestamp = some latest)
    (hmax : ∀ e ∈ coll, ∀ t : Int, e.timestamp = some t → t ≤ latest) :
    (∀ d ∈ coll, ∀ ts v : Int, d.timestamp = some ts → d.voltage = some v →
        latest - windowDelta ≤ ts → (⟨ts, v⟩ : Row) ∈ fetch_firestore_data coll) ∧
    (∀ row ∈ fetch_firestore_data coll, ∃ d ∈ coll,
        d.timestamp = some row.timestamp ∧ d.voltage = some row.voltage) ∧
    fetchE (.ok (queryLatestDesc coll)) (fun s => .ok (queryRangeAsc coll s)) =
      .ok (fetch_firestore_data coll) := by
  obtain ⟨dl, hdl, hdlts⟩ := hex
  obtain ⟨d, rest, hq⟩ :=
    List.exists_cons_of_ne_nil (queryLatestDesc_ne_nil hdl hdlts)
  have hanchor := queryLatestDesc_anchor ⟨dl, hdl, hdlts⟩ hmax hq
  refine ⟨?_, ?_, fetchE_ok_eq coll⟩
  · intro d0 hd0 ts v hts hv hwin
    rw [fetch_eq_window hq hanchor]
    refine mem_buildRows.mpr ⟨d0, mem_queryRangeAsc.mpr ⟨hd0, ?_⟩, hts, hv⟩
    simp [inWindow, hts, hwin]
  · intro row hrow
    rw [fetch_eq_window hq hanchor] at hrow
    obtain ⟨e, he, h1, h2⟩ := mem_buildRows.mp hrow
    exact ⟨e, (mem_queryRangeAsc.mp he).1, h1, h2⟩

/-- C4: an empty backing collection, or a top record lacking the
`timestamp` field, yields an empty window and no error. -/
theorem fetch_empty_or_missing_anchor :
    fetch_firestore_data [] = [] ∧
    (∀ rangeQ : Int → Except QueryError (List Doc), fetchE (.ok []) rangeQ = .ok []) ∧
    (∀ (rangeQ : Int → Except QueryError (List Doc)) (d : Doc) (rest : List Doc),
      d.timestamp = none → fetchE (.ok (d :: rest)) rangeQ = .ok []) := by
  refine ⟨rfl, fun _ => rfl, ?_⟩
  intro rq d rest hts
  unfold fetchE
  change (match d.timestamp with
    | none => Except.ok ([] : List Row)
    | some latest_ts =>
      match rq (latest_ts - windowDelta) with
      | Except.error er => Except.error er
      | Except.ok docs => Except.ok (buildRows docs)) = Except.ok []
  rw [hts]

/-- C5: a connectivity/query failure of either source query propagates to
the caller as a catchable error and is never converted into an empty
window. -/
theorem fetch_propagates_error :
    (∀ (e : QueryError) (rangeQ : Int → Except QueryError (List Doc)),
      fetchE (.error e) rangeQ = .error e ∧ fetchE (.error e) rangeQ ≠ .ok []) ∧
    (∀ (e : QueryError) (d : Doc) (rest : List Doc) (ts : Int)
        (rangeQ : Int → Except QueryError (List Doc)),
      d.timestamp = some ts → rangeQ (ts - windowDelta) = .error e →
      fetchE (.ok (d :: rest)) rangeQ = .error e ∧
        fetchE (.ok (d :: rest)) rangeQ ≠ .ok []) := by
  constructor
  · intro e rq
    exact ⟨rfl, by simp [fetchE]⟩
  · intro e d rest ts rq hts hr
    have heq : fetchE (.ok (d :: rest)) rq = .error e := by
      unfold fetchE
      change (match d.timestamp with
        | none => Except.ok ([] : List Row)
        | some latest_ts =>
          match rq (latest_ts - windowDelta) with
          | Except.error er => Except.error er
          | Except.ok docs => Except.ok (buildRows docs)) = Except.error e
      rw [hts]
      change (match rq (ts - windowDelta) with
        | Except.error er => Except.error er
        | Except.ok docs => Except.ok (buildRows docs)) = Except.error e
      rw [hr]
    refine ⟨heq, ?_⟩
    rw [heq]
    simp

/-- C6: on the collection with records at 10.0 s (5.0 V), 10.2 s (5.1 V)
and 16.0 s (5.2 V) — in milliseconds/millivolts — the fetch returns
exactly the 16.0 s record. -/
theorem fetch_scenario_burst :
    fetch_firestore_data
        [⟨some 10000, some 5000, []⟩, ⟨some 10200, some 5100, []⟩,
         ⟨some 16000, some 5200, []⟩] =
      [⟨16000, 5200⟩] := by
  decide

/-- C7: on the collection with records at 10.0 s (5.0 V) and 12.0 s
(voltage missing), the window is anchored at 12.0 s (the top-1 query
returns that record), the 12.0 s record is excluded, and the fetch
returns exactly the 10.0 s record. -/
theorem fetch_scenario_anchor_missing_value :
    queryLatestDesc [⟨some 10000, some 5000, []⟩, ⟨some 12000, none, []⟩] =
        [⟨some 12000, none, []⟩] ∧
    fetch_firestore_data [⟨some 10000, some 5000, []⟩, ⟨some 12000, none, []⟩] =
        [⟨10000, 5000⟩] := by
  decide


lemma hmax_of_decidable {coll : List Doc} {latest : Int}
    (h : ∀ e ∈ coll, hasTs e = true → tsv e ≤ latest) :
    ∀ e ∈ coll, ∀ t : Int, e.timestamp = some t → t ≤ latest := by
  intro e he t ht
  have := h e he (by simp [hasTs, ht])
  rwa [tsv_eq ht] at this

/-- C8: two fetches for the same collection identifier within the
60-second cache validity, with the backing collection unchanged, return
an identical window. -/
theorem cached_fetch_idempotent (store : String → List Doc)
    (cache : String → Option CacheEntry) (name : String) (t1 t2 : Int)
    (hnone : cache name = none) (h12 : t1 ≤ t2) (httl : t2 - t1 < cacheTtl) :
    (cachedFetch store ((cachedFetch store cache name t1).2) name t2).1 =
      (cachedFetch store cache name t1).1 := by
  have h1 : cachedFetch store cache name t1 =
      (fetch_firestore_data (store name),
       fun n =>
         if n = name then some ⟨fetch_firestore_data (store name), t1⟩ else cache n) := by
    unfold cachedFetch
    rw [hnone]
  rw [h1]
  simp [cachedFetch, httl]

/-- C9 counterexample: the fetch exposes no skipped-record count and no
log hook — its entire observable output is the returned window, which is
bit-for-bit identical whether or not a malformed record (missing
`timestamp`, or missing `voltage`) was present and skipped. -/
theorem fetch_skip_unobservable_cex :
    fetch_firestore_data [⟨some 10000, some 5000, []⟩, ⟨none, some 7000, []⟩] =
      fetch_firestore_data [⟨some 10000, some 5000, []⟩] ∧
    fetch_firestore_data [⟨some 10000, some 5000, []⟩, ⟨some 9000, none, []⟩] =
      fetch_firestore_data [⟨some 10000, some 5000, []⟩] ∧
    fetch_firestore_data [⟨some 10000, some 5000, []⟩, ⟨none, some 7000, []⟩] =
      [⟨10000, 5000⟩] := by
  decide

/-- C9 (amended): the fetch skips malformed records silently and exposes
no count or log hook: a record missing its `timestamp` leaves the
returned window entirely unchanged. -/
theorem fetch_skip_silent (coll : List Doc) (d : Doc) (hts : d.timestamp = none) :
    fetch_firestore_data (d :: coll) = fetch_firestore_data coll := by
  have hfilter1 : (d :: coll).filter hasTs = coll.filter hasTs := by
    simp [hasTs, hts, List.filter_cons]
  have h2 : queryLatestDesc (d :: coll) = queryLatestDesc coll := by
    unfold queryLatestDesc
    rw [hfilter1]
  have h3 : ∀ s : Int, queryRangeAsc (d :: coll) s = queryRangeAsc coll s := by
    intro s
    unfold queryRangeAsc
    rw [show (d :: coll).filter (inWindow s) = coll.filter (inWindow s) by
      simp [inWindow, hts, List.filter_cons]]
  rcases hq : queryLatestDesc coll with _ | ⟨d0, rest⟩
  · rw [fetch_eq_nil (h2.trans hq), fetch_eq_nil hq]
  · rcases hts0 : d0.timestamp with _ | ts
    · rw [fetch_eq_noTs (h2.trans hq) hts0, fetch_eq_noTs hq hts0]
    · rw [fetch_eq_window (h2.trans hq) hts0, fetch_eq_window hq hts0, h3]


lemma buildRows_map_strip (l : List Doc) :
    buildRows (l.map stripExtra) = buildRows l := by
  induction l with
  | nil => rfl
  | cons d ds ih =>
    cases hts : d.timestamp with
    | none => simp only [List.map_cons, buildRows, stripExtra, hts, ih]
    | some ts =>
      cases hv : d.voltage with
      | none => simp only [List.map_cons, buildRows, stripExtra, hts, hv, ih]
      | some v => simp only [List.map_cons, buildRows, stripExtra, hts, hv, ih]

lemma filter_map_strip (p : Doc → Bool) (hp : ∀ d, p (stripExtra d) = p d)
    (l : List Doc) : (l.map stripExtra).filter p = (l.filter p).map stripExtra := by
  rw [List.filter_map]
  congr 1
  exact List.filter_congr fun a _ => hp a

lemma queryLatestDesc_map_strip (coll : List Doc) :
    queryLatestDesc (coll.map stripExtra) = (queryLatestDesc coll).map stripExtra := by
  unfold queryLatestDesc
  rw [filter_map_strip hasTs (fun d => rfl),
    ← List.map_insertionSort tsGe tsGe stripExtra _ (fun a _ b _ => Iff.rfl),
    List.map_take]

lemma queryRangeAsc_map_strip (coll : List Doc) (s : Int) :
    queryRangeAsc (coll.map stripExtra) s = (queryRangeAsc coll s).map stripExtra := by
  unfold queryRangeAsc
  rw [filter_map_strip (inWindow s) (fun d => rfl),
    ← List.map_insertionSort tsLe tsLe stripExtra _ (fun a _ b _ => Iff.rfl)]

/-- C10: every row of the window carries exactly the `timestamp` and
`voltage` values of some source record, and any other fields of the
source records are dropped: stripping all extra fields from every source
record leaves the fetch result unchanged. -/
theorem fetch_row_projection (coll : List Doc) :
    (∀ row ∈ fetch_firestore_data coll, ∃ d ∈ coll,
        d.timestamp = some row.timestamp ∧ d.voltage = some row.voltage) ∧
    fetch_firestore_data (coll.map stripExtra) = fetch_firestore_data coll := by
  constructor
  · intro row hrow
    rcases hq : queryLatestDesc coll with _ | ⟨d, rest⟩
    · rw [fetch_eq_nil hq] at hrow
      exact absurd hrow (List.not_mem_nil row)
    · rcases hts : d.timestamp with _ | ts
      · rw [fetch_eq_noTs hq hts] at hrow
        exact absurd hrow (List.not_mem_nil row)
      · rw [fetch_eq_window hq hts] at hrow
        obtain ⟨e, he, h1, h2⟩ := mem_buildRows.mp hrow
        exact ⟨e, (mem_queryRangeAsc.mp he).1, h1, h2⟩
  · rcases hq : queryLatestDesc coll with _ | ⟨d, rest⟩
    · have hq2 : queryLatestDesc (coll.map stripExtra) = [] := by
        rw [queryLatestDesc_map_strip, hq]
        rfl
      rw [fetch_eq_nil hq2, fetch_eq_nil hq]
    · have hq2 : queryLatestDesc (coll.map stripExtra) =
          stripExtra d :: rest.map stripExtra := by
        rw [queryLatestDesc_map_strip, hq]
        rfl
      rcases hts : d.timestamp with _ | ts
      · rw [fetch_eq_noTs hq2 (show (stripExtra d).timestamp = none from hts),
          fetch_eq_noTs hq hts]
      · rw [fetch_eq_window hq2 (show (stripExtra d).timestamp = some ts from hts),
          fetch_eq_window hq hts, queryRangeAsc_map_strip, buildRows_map_strip]


theorem fetch_window_bounds_witness :
    (16000 : Int) - windowDelta ≤ (⟨16000, 5200⟩ : Row).timestamp ∧
      (⟨16000, 5200⟩ : Row).timestamp ≤ 16000 :=
  fetch_window_bounds
    [⟨some 10000, some 5000, []⟩, ⟨some 10200, some 5100, []⟩,
     ⟨some 16000, some 5200, []⟩] 16000
    (by decide) (hmax_of_decidable (by decide)) ⟨16000, 5200⟩ (by decide)

theorem fetch_filters_malformed_witness :
    (⟨10000, 5000⟩ : Row) ∈
      fetch_firestore_data [⟨some 10000, some 5000, []⟩, ⟨some 12000, none, []⟩] :=
  (fetch_filters_malformed [⟨some 10000, some 5000, []⟩, ⟨some 12000, none, []⟩]
      12000 (by decide) (hmax_of_decidable (by decide))).1
    ⟨some 10000, some 5000, []⟩ (by decide) 10000 5000 rfl rfl (by decide)

theorem fetch_empty_or_missing_anchor_witness :
    fetchE (.ok [⟨none, some 1000, []⟩]) (fun _ => .ok []) = .ok [] :=
  fetch_empty_or_missing_anchor.2.2 (fun _ => .ok []) ⟨none, some 1000, []⟩ [] rfl

theorem fetch_propagates_error_witness :
    fetchE (.error "connection reset") (fun _ => .ok []) = .error "connection reset" ∧
    fetchE (.ok [⟨some 0, none, []⟩]) (fun _ => .error "deadline exceeded") =
      .error "deadline exceeded" :=
  ⟨(fetch_propagates_error.1 "connection reset" (fun _ => .ok [])).1,
    (fetch_propagates_error.2 "deadline exceeded" ⟨some 0, none, []⟩ [] 0
        (fun _ => .error "deadline exceeded") rfl rfl).1⟩

theorem cached_fetch_idempotent_witness :
    (cachedFetch (fun _ => [⟨some 16000, some 5200, []⟩])
        ((cachedFetch (fun _ => [⟨some 16000, some 5200, []⟩])
            (fun _ => none) "voltage" 0).2)
        "voltage" 1000).1 =
      (cachedFetch (fun _ => [⟨some 16000, some 5200, []⟩])
          (fun _ => none) "voltage" 0).1 :=
  cached_fetch_idempotent (fun _ => [⟨some 16000, some 5200, []⟩])
    (fun _ => none) "voltage" 0 1000 rfl (by decide) (by decide)

theorem fetch_skip_silent_witness :
    fetch_firestore_data [⟨none, some 7000, []⟩, ⟨some 10000, some 5000, []⟩] =
      fetch_firestore_data [⟨some 10000, some 5000, []⟩] :=
  fetch_skip_silent [⟨some 10000, some 5000, []⟩] ⟨none, some 7000, []⟩ rfl

theorem fetch_row_projection_witness :
    ∃ d ∈ ([⟨some 16000, some 5200, [("unit", 1)]⟩] : List Doc),
      d.timestamp = some (16000 : Int) ∧ d.voltage = some (5200 : Int) :=
  (fetch_row_projection [⟨some 16000, some 5200, [("unit", 1)]⟩]).1
    ⟨16000, 5200⟩ (by decide)

end RaspberryServer
